import Mathlib

/-!
Verification development for the AI-Research-Assistant RAG core
(`backend/app/services/rag_service.py` and `backend/app/api/v1/session_rag.py`).

The Python code is shallowly embedded: Python values that flow through the
metadata pipeline are modelled by the inductive type `PyVal`; dictionaries are
association lists in insertion order (Python 3.7+ dicts preserve insertion
order and have unique keys); machine floats never undergo arithmetic in the
verified code paths, so a float is carried opaquely as its decimal
representation string.
-/

namespace RagService

/-- Model of a Python value as it appears in chunk/match metadata.
Floats are opaque (only ever passed through or converted to `str`),
carried by their `repr` string. Tuples are identified with lists. -/
inductive PyVal where
  | none
  | bool (b : Bool)
  | int (n : Int)
  | float (repr : String)
  | str (s : String)
  | list (xs : List PyVal)
  | dict (kvs : List (String × PyVal))

/-- `value is None` test. -/
def PyVal.isNone : PyVal → Bool
  | .none => true
  | _ => false

mutual

/-- Python `repr(v)`: the form used for elements when a list or dict is
converted by `str`. String escaping inside quotes is not reproduced
character-for-character (no claim depends on it); the quoting shape is. -/
def pyRepr : PyVal → String
  | .none => "None"
  | .bool b => if b then "True" else "False"
  | .int n => toString n
  | .float r => r
  | .str s => "'" ++ s ++ "'"
  | .list xs => "[" ++ String.intercalate ", " (pyReprList xs) ++ "]"
  | .dict kvs => "\x7b" ++ String.intercalate ", " (pyReprDict kvs) ++ "\x7d"

def pyReprList : List PyVal → List String
  | [] => []
  | v :: vs => pyRepr v :: pyReprList vs

def pyReprDict : List (String × PyVal) → List String
  | [] => []
  | (k, v) :: kvs => ("'" ++ k ++ "': " ++ pyRepr v) :: pyReprDict kvs

end

/-- Python `str(v)`. Differs from `repr` only on strings themselves. -/
def pyStr : PyVal → String
  | .str s => s
  | v => pyRepr v

/-- Python dict read `m.get(k)` on an association list. -/
def mget (m : List (String × PyVal)) (k : String) : Option PyVal :=
  (m.find? (fun p => p.1 = k)).map (fun p => p.2)

/-- Python dict assignment `m[k] = v`: replace in place if the key exists,
otherwise append. -/
def mset (m : List (String × PyVal)) (k : String) (v : PyVal) :
    List (String × PyVal) :=
  match m with
  | [] => [(k, v)]
  | (k', v') :: rest => if k' = k then (k, v) :: rest else (k', v') :: mset rest k v

/-- `RAGService.clean_metadata_for_pinecone`, inner per-value step. Returns
`Option.none` when the key is to be skipped (Python `continue`). Source:
rag_service.py lines 749-766. -/
def cleanValueForPinecone : PyVal → Option PyVal
  | .none => Option.none
  | .str s => some (.str s)
  | .int n => some (.int n)
  | .float r => some (.float r)
  | .bool b => some (.bool b)
  | .list xs =>
      -- string_list = [str(item) for item in value if item is not None]
      let string_list := (xs.filter (fun x => !x.isNone)).map (fun x => PyVal.str (pyStr x))
      if string_list.isEmpty then Option.none   -- only add if list is not empty
      else some (.list string_list)
  | .dict kvs => some (.str (pyStr (.dict kvs)))

/-- `RAGService.clean_metadata_for_pinecone` (rag_service.py lines 737-768).
Keys are already strings (`Dict[str, Any]`), so `str(key)` is the key itself. -/
def clean_metadata_for_pinecone (metadata : List (String × PyVal)) :
    List (String × PyVal) :=
  metadata.filterMap (fun p => (cleanValueForPinecone p.2).map (fun v => (p.1, v)))

/-- The shape Pinecone accepts: string, int, float, bool, or a non-empty
list of (non-null) strings. -/
def PineconeSafe : PyVal → Prop
  | .str _ => True
  | .int _ => True
  | .float _ => True
  | .bool _ => True
  | .list xs => xs ≠ [] ∧ ∀ x ∈ xs, ∃ s, x = PyVal.str s
  | _ => False

/-- Python whitespace for `str.strip` (the ASCII part; the embedded texts
are ASCII). -/
def pyIsSpace (c : Char) : Bool :=
  c = ' ' || c = '\t' || c = '\n' || c = '\r' || c = '\x0b' || c = '\x0c'

/-- Python `s.strip()`. -/
def pyStrip (s : String) : String :=
  ⟨((s.data.dropWhile pyIsSpace).reverse.dropWhile pyIsSpace).reverse⟩

/-- Python `s.split('\n')`. -/
def pySplitNlAux : List Char → List Char → List String
  | [], acc => [⟨acc⟩]
  | '\n' :: cs, acc => (⟨acc⟩ : String) :: pySplitNlAux cs []
  | c :: cs, acc => pySplitNlAux cs (acc ++ [c])

def pySplitNl (s : String) : List String :=
  pySplitNlAux s.data []

/-- Python `s.startswith(pre)`. -/
def pyStartsWith (s pre : String) : Bool :=
  pre.data.isPrefixOf s.data

/-- Python `s[:n]`. -/
def pyTake (s : String) (n : Nat) : String :=
  ⟨s.data.take n⟩

/-- Python `'\n'.join(ls)`. -/
def pyJoinNl : List String → String
  | [] => ""
  | [s] => s
  | s :: rest => s ++ "\n" ++ pyJoinNl rest

/-- Module-level constants of rag_service.py, lines 50-63. -/
def CHUNK_SIZE : Nat := 1000

def CHUNK_OVERLAP : Nat := 200

def BATCH_SIZE : Nat := 100

def PINECONE_DIMENSION : Nat := 1024

def LLM_MODEL : String := "openai/gpt-oss-20b"

/-- Python truthiness of a value. The float case is an approximation (floats
are opaque in this model and are never tested for truthiness on the verified
paths). -/
def pyTruthy : PyVal → Bool
  | .none => false
  | .bool b => b
  | .int n => n ≠ 0
  | .float r => r ≠ "0.0"
  | .str s => s ≠ ""
  | .list xs => !xs.isEmpty
  | .dict kvs => !kvs.isEmpty

mutual

/-- `serialize_value` nested inside `RAGService.clean_metadata_for_json`
(rag_service.py lines 781-793). The depth guard comes first, exactly as in
the code; tuples are identified with lists. -/
def serialize_value : PyVal → Nat → PyVal
  | v, depth =>
    if depth > 5 then .str (pyStr v)
    else
      match v with
      | .none => .none
      | .bool b => .bool b
      | .int n => .int n
      | .float r => .float r
      | .str s => .str s
      | .list xs => .list (serialize_list xs (depth + 1))
      | .dict kvs => .dict (serialize_dict kvs (depth + 1))

def serialize_list : List PyVal → Nat → List PyVal
  | [], _ => []
  | v :: vs, d => serialize_value v d :: serialize_list vs d

def serialize_dict : List (String × PyVal) → Nat → List (String × PyVal)
  | [], _ => []
  | (k, v) :: kvs, d => (k, serialize_value v d) :: serialize_dict kvs d

end

/-- `RAGService.clean_metadata_for_json` (rag_service.py lines 770-801).
In the model `serialize_value` is total, so the `try/except` around it is
dead; every key is serialized. -/
def clean_metadata_for_json (metadata : List (String × PyVal)) :
    List (String × PyVal) :=
  metadata.map (fun p => (p.1, serialize_value p.2 0))

mutual

/-- Structural nesting depth of a value (scalars are 0). -/
def pyDepth : PyVal → Nat
  | .list xs => pyDepthList xs + 1
  | .dict kvs => pyDepthDict kvs + 1
  | _ => 0

def pyDepthList : List PyVal → Nat
  | [] => 0
  | v :: vs => max (pyDepth v) (pyDepthList vs)

def pyDepthDict : List (String × PyVal) → Nat
  | [] => 0
  | (_, v) :: kvs => max (pyDepth v) (pyDepthDict kvs)

end

/-- `os.path.basename`: the suffix after the last `/` (empty for a trailing
slash). -/
def basename (p : String) : String :=
  ⟨p.data.foldl (fun acc c => if c = '/' then [] else acc ++ [c]) []⟩

/-- Python `s.replace(".pdf", "")`: scan left to right, removing each
occurrence of `.pdf` and continuing after it. -/
def removePdf : List Char → List Char
  | '.' :: 'p' :: 'd' :: 'f' :: rest => removePdf rest
  | c :: cs => c :: removePdf cs
  | [] => []

/-- Whether `.pdf` occurs as a substring. -/
def hasPdf : List Char → Bool
  | '.' :: 'p' :: 'd' :: 'f' :: _ => true
  | _ :: cs => hasPdf cs
  | [] => false

/-- The `paper_id` field of `RAGService.extract_paper_metadata`
(rag_service.py line 500): `os.path.basename(source_path).replace('.pdf', '')`. -/
def extract_paper_metadata_paper_id (source_path : String) : String :=
  ⟨removePdf (basename source_path).data⟩

/-- The `title` field of `RAGService.extract_paper_metadata`
(rag_service.py lines 507-514): among the stripped non-empty lines, scan the
first five and take the first with `len(line) > 20` not starting with
`arXiv:`; default `''`. -/
def extract_paper_metadata_title (text : String) : String :=
  let lines := ((pySplitNl text).map pyStrip).filter (fun l => l ≠ "")
  match (lines.take 5).find?
      (fun line => line.data.length > 20 && !(pyStartsWith line "arXiv:")) with
  | some line => line
  | Option.none => ""

/-- Python `needle in hay` on strings (substring). -/
def strContainsSub (hay needle : String) : Bool :=
  (List.range (hay.data.length + 1)).any (fun i => needle.data.isPrefixOf (hay.data.drop i))

/-- A langchain `Document`: text plus a metadata dict. -/
structure PyDoc where
  page_content : String
  metadata : List (String × PyVal)

/-- One entry of `extract_figures_tables`. -/
structure FigTable where
  type : String
  label : String
  caption : String

def figTableToPy (ft : FigTable) : PyVal :=
  .dict [("type", .str ft.type), ("label", .str ft.label), ("caption", .str ft.caption)]

/-- `update_chunk_metadata` (rag_service.py lines 125-148). The
`metadata_updates` dict is applied key by key in literal order, then
`paper_metadata` is merged. `x or y` on strings/lists is `getD`. -/
def update_chunk_metadata (chunk : PyDoc) (section_name subsection : Option String)
    (citations : List String) (figures_tables : List FigTable)
    (chunk_type : String) (paper_metadata : List (String × PyVal)) : PyDoc :=
  let m := chunk.metadata
  let m := mset m "section" (.str (section_name.getD ""))
  let m := mset m "subsection" (.str (subsection.getD ""))
  let m := mset m "citations" (.list (citations.map PyVal.str))
  let m := mset m "figures_tables" (.list (figures_tables.map figTableToPy))
  let m := mset m "chunk_type" (.str chunk_type)
  let m := paper_metadata.foldl (fun acc kv => mset acc kv.1 kv.2) m
  { page_content := chunk.page_content, metadata := m }

/-- Python `'\n'.join(text_lines[a:b])`. -/
def sliceText (lines : List String) (a b : Nat) : String :=
  pyJoinNl ((lines.drop a).take (b - a))

/-- The `"[Section: <name>]\n"` text prepended to section chunks. -/
def sectionContext (name : String) : String :=
  "[Section: " ++ name ++ "]\n"

/-- A detected section heading: `{name, line_number}` as produced by
`detect_paper_sections` (`line_number` is the index of the heading's own
line). The regex layer itself is external to this model. -/
structure PSection where
  name : String
  line_number : Nat

/-- The per-section loop of `RAGService.hierarchical_chunk_documents`
(rag_service.py lines 684-719), recursing over the detected sections so that
the head's end line is the next section's `line_number` (or the line count
for the last section). `split c o t` models
`RecursiveCharacterTextSplitter(chunk_size=c, chunk_overlap=o)` applied to
`t` (an external library, kept abstract); `current_subsection` is never
assigned in the loop, hence `none` throughout. -/
def section_based_chunks (split : Nat → Nat → String → List String)
    (doc : PyDoc) (text_lines : List String) (citations : List String)
    (figures_tables : List FigTable) (paper_metadata : List (String × PyVal)) :
    List PSection → List PyDoc
  | [] => []
  | s :: rest =>
      let end_line := match rest with
        | [] => text_lines.length
        | s' :: _ => s'.line_number
      let section_text := sliceText text_lines s.line_number end_line
      let cs :=
        if section_text.data.length > 1200 then
          (split 800 150 section_text).map (fun t =>
            update_chunk_metadata ⟨sectionContext s.name ++ t, doc.metadata⟩
              (some s.name) Option.none citations figures_tables
              "section_content" paper_metadata)
        else
          [update_chunk_metadata ⟨sectionContext s.name ++ section_text, doc.metadata⟩
              (some s.name) Option.none citations figures_tables
              "section_content" paper_metadata]
      cs ++ section_based_chunks split doc text_lines citations figures_tables
        paper_metadata rest

/-- `RAGService.hierarchical_chunk_documents` for a single document
(rag_service.py lines 656-732), with the detected sections, citations and
figure/table captions of the document taken as inputs (they are produced by
the regex-based structural analyzer, which is not re-modelled here). -/
def hierarchical_chunk_document (split : Nat → Nat → String → List String)
    (doc : PyDoc) (sections : List PSection) (citations : List String)
    (figures_tables : List FigTable) (paper_metadata : List (String × PyVal)) :
    List PyDoc :=
  if sections.isEmpty then
    (split CHUNK_SIZE CHUNK_OVERLAP doc.page_content).map (fun t =>
      update_chunk_metadata ⟨t, doc.metadata⟩ Option.none Option.none citations
        figures_tables "content" paper_metadata)
  else
    section_based_chunks split doc (pySplitNl doc.page_content) citations
      figures_tables paper_metadata sections
    ++ figures_tables.map (fun ft =>
        let fig_doc := update_chunk_metadata
          ⟨"[" ++ ft.type.capitalize ++ ": " ++ ft.label ++ "] " ++ ft.caption,
            doc.metadata⟩
          (some "Figures/Tables") (some "") citations figures_tables ft.type
          paper_metadata
        { fig_doc with
            metadata := mset fig_doc.metadata "figure_label" (.str ft.label) })

/-- A stored vector of the index: id plus metadata (the dense/sparse payload
plays no role in removal). -/
structure IdxRecord where
  id : String
  metadata : List (String × PyVal)

/-- The match test of `remove_document_chunks` (rag_service.py lines
1450-1452): metadata truthy, has a `source` key, and `document_name` occurs
in its (string) value. -/
def matches_document (document_name : String) (r : IdxRecord) : Bool :=
  !r.metadata.isEmpty &&
    (match mget r.metadata "source" with
     | some (.str s) => strContainsSub s document_name
     | _ => false)

/-- The `top_k` used by the removal query (rag_service.py line 1443):
`min(10000, int(total_vectors))`. -/
def query_top_k (total_vectors : Nat) : Nat :=
  min 10000 total_vectors

/-- The deletion loop of `remove_document_chunks` (rag_service.py lines
1459-1463): delete ids in slices of `BATCH_SIZE`, counting each slice's
length. `index.delete(ids=batch)` removes the records whose id is in the
batch. -/
def delete_loop : List IdxRecord → List String → Nat × List IdxRecord
  | store, [] => (0, store)
  | store, i :: rest =>
      let batch := (i :: rest).take BATCH_SIZE
      let store' := store.filter (fun r => !batch.contains r.id)
      let res := delete_loop store' ((i :: rest).drop BATCH_SIZE)
      (batch.length + res.1, res.2)
  termination_by _ ids => ids.length
  decreasing_by simp [List.length_drop, BATCH_SIZE]; omega

/-- `RAGService.remove_document_chunks` (rag_service.py lines 1421-1465) over
an abstract index state: the dummy-vector query returns (at most) the first
`top_k` records in the store's internal nearest-neighbor order, which the
model takes as the list order. Returns (deleted count, remaining store). The
`except` fallback (filter-based delete) is unreachable in the model, which
has no transport errors. -/
def remove_document_chunks (store : List IdxRecord) (document_name : String) :
    Nat × List IdxRecord :=
  let total_vectors := store.length
  let query_matches := store.take (query_top_k total_vectors)
  let matching_ids := (query_matches.filter (matches_document document_name)).map (·.id)
  if matching_ids.isEmpty then (0, store)
  else delete_loop store matching_ids

/-- One record of a hybrid upsert payload (rag_service.py lines 1041-1054).
Dense vectors (`V`) and sparse vectors (`S`) are opaque provider outputs. -/
structure UpsertVector (V S : Type) where
  id : String
  values : V
  sparse_values : Option S
  metadata : List (String × PyVal)

/-- `vectors_to_upsert` for one batch of `n` chunks (rag_service.py lines
1039-1054): record `j` gets `ids[j]`, `vectors[j]`, `metadata_list[j]`, and
`sparse_values` when sparse vectors exist and `j < len(sparse_vectors)`. -/
def vectors_to_upsert {V S : Type} (n : Nat) (ids : Nat → String)
    (vectors : Nat → V) (metadata_list : Nat → List (String × PyVal))
    (sparse_vectors : Option (Nat → S)) (sparse_len : Nat) :
    List (UpsertVector V S) :=
  (List.range n).map (fun j =>
    { id := ids j
      values := vectors j
      sparse_values := match sparse_vectors with
        | some sv => if j < sparse_len then some (sv j) else Option.none
        | Option.none => Option.none
      metadata := metadata_list j })

/-- `dense_vectors_only` (rag_service.py lines 1064-1067): tuples
`(ids[j], vectors[j], metadata_list[j])` for the same batch. -/
def dense_vectors_only {V : Type} (n : Nat) (ids : Nat → String)
    (vectors : Nat → V) (metadata_list : Nat → List (String × PyVal)) :
    List (String × V × List (String × PyVal)) :=
  (List.range n).map (fun j => (ids j, vectors j, metadata_list j))

/-- A payload handed to `index.upsert`, for the transport log. -/
inductive UpsertPayload (V S : Type) where
  | hybrid (vs : List (UpsertVector V S))
  | dense (vs : List (String × V × List (String × PyVal)))

/-- The per-batch upsert step of `upsert_documents_to_index` (rag_service.py
lines 1056-1075). `hybridOutcome`/`denseOutcome` are the transport results of
the first and (if reached) second `index.upsert` call. Returns the batch
result (new `upserted_count`, or the propagated error `e2`) together with the
log of payloads actually sent. -/
def upsert_one_batch {V S E : Type} (hybridOutcome denseOutcome : Except E Unit)
    (n : Nat) (ids : Nat → String) (vectors : Nat → V)
    (metadata_list : Nat → List (String × PyVal))
    (sparse_vectors : Option (Nat → S)) (sparse_len : Nat)
    (upserted_count : Nat) : Except E Nat × List (UpsertPayload V S) :=
  let payload1 := UpsertPayload.hybrid
    (vectors_to_upsert n ids vectors metadata_list sparse_vectors sparse_len)
  match hybridOutcome with
  | .ok _ => (.ok (upserted_count + n), [payload1])
  | .error _ =>
      let payload2 := UpsertPayload.dense (dense_vectors_only n ids vectors metadata_list)
      match denseOutcome with
      | .ok _ => (.ok (upserted_count + n), [payload1, payload2])
      | .error e2 => (.error e2, [payload1, payload2])

/-- Ids of the records of a payload. -/
def payloadIds {V S : Type} : UpsertPayload V S → List String
  | .hybrid vs => vs.map (·.id)
  | .dense vs => vs.map (·.1)

/-- Metadata of the records of a payload. -/
def payloadMetadata {V S : Type} : UpsertPayload V S → List (List (String × PyVal))
  | .hybrid vs => vs.map (·.metadata)
  | .dense vs => vs.map (·.2.2)

/-- A Pinecone query match: id, score (a float, opaque), metadata. -/
structure PMatch where
  id : String
  score : PyVal
  metadata : List (String × PyVal)

/-- `fastapi.HTTPException` as raised by the service/endpoint. -/
structure HTTPException where
  status_code : Nat
  detail : String

/-- One `source_info` dict of a session-scoped answer (rag_service.py lines
1331-1351). `sectionKey` models the conditionally present
`source_info["section"]`. -/
structure SourceInfo where
  rank : Nat
  content : String
  metadataJson : List (String × PyVal)
  relevance_score : Option PyVal
  source : Option String
  sectionKey : Option PyVal
  page : Option PyVal
  paper_id : Option PyVal

/-- The `QuestionResponse` model (question, answer, sources, metadata). -/
structure QuestionResponse where
  question : String
  answer : String
  sources : List SourceInfo
  metadata : List (String × PyVal)

/-- `prepare_document_for_reranking` (rag_service.py lines 150-173). -/
def prepare_document_for_reranking (doc : PyDoc) : Option PyDoc :=
  if pyStrip doc.page_content = "" then Option.none
  else some
    { page_content := doc.page_content
      metadata :=
        [("text", .str doc.page_content),
         ("source", (mget doc.metadata "source").getD (.str "unknown")),
         ("page", (mget doc.metadata "page").getD (.int 0)),
         ("section", (mget doc.metadata "section").getD (.str "")),
         ("citations", (mget doc.metadata "citations").getD (.list [])),
         ("paper_id", (mget doc.metadata "paper_id").getD (.str ""))] }

/-- One `source_info` of the session-scoped source loop (rag_service.py
lines 1331-1351); `i` is the 0-based loop index. The `source` field takes
the basename of the metadata `source` value. -/
def build_source_info (i : Nat) (doc : PyDoc) : SourceInfo :=
  { rank := i + 1
    content :=
      if doc.page_content.data.length > 500 then pyTake doc.page_content 500 ++ "..."
      else doc.page_content
    metadataJson := clean_metadata_for_json doc.metadata
    relevance_score := mget doc.metadata "relevance_score"
    source := (mget doc.metadata "source").map (fun v => basename (pyStr v))
    sectionKey := mget doc.metadata "section"
    page := mget doc.metadata "page"
    paper_id := mget doc.metadata "paper_id" }

/-- `for i, doc in enumerate(reranked_docs[:5])` building `sources`. -/
def build_sources : Nat → List PyDoc → List SourceInfo
  | _, [] => []
  | i, d :: ds => build_source_info i d :: build_sources (i + 1) ds

/-- The `sections_referenced` values: `section` values of the top-5 docs
when present. (Python collects them in a `set`, whose iteration order is
unspecified; the model keeps encounter order without deduplication. No claim
depends on these fields.) -/
def collect_sections (docs : List PyDoc) : List PyVal :=
  docs.filterMap (fun d => mget d.metadata "section")

def collect_citations (docs : List PyDoc) : List PyVal :=
  docs.foldl (fun acc d =>
    match mget d.metadata "citations" with
    | some v => if pyTruthy v then
        (match v with | .list xs => acc ++ xs | _ => acc) else acc
    | Option.none => acc) []

def collect_papers (docs : List PyDoc) : List PyVal :=
  docs.filterMap (fun d => mget d.metadata "paper_id")

/-- The fixed metadata of the two early-return responses of
`ask_question_session_scoped` (rag_service.py lines 1202-1208, 1242-1248). -/
def empty_scope_metadata (session_files : List String) : List (String × PyVal) :=
  [("total_sources", .int 0),
   ("model_used", .str LLM_MODEL),
   ("session_scoped", .bool true),
   ("session_files_searched", .list (session_files.map PyVal.str)),
   ("research_paper_aware", .bool true)]

/-- `RAGService.ask_question_session_scoped` (rag_service.py lines
1172-1379), over abstract collaborator outcomes:
`filteredQuery`/`fallbackQuery` are the results of the `index.query` call
with and without the `$or` source filter; `reranker` is absent (`None`) or a
compressor that may fail; `llmOutcome` is the LLM call's result. The inner
`HTTPException` raised when both queries fail is caught by the function's own
`except Exception` and re-wrapped into a 500. -/
def ask_question_session_scoped (question : String) (session_files : List String)
    (filteredQuery fallbackQuery : Except String (List PMatch))
    (reranker : Option (List PyDoc → Except String (List PyDoc)))
    (llmOutcome : Except String String) : Except HTTPException QuestionResponse :=
  let filter_conditions := session_files.map (fun fn => ("source", "data/input/" ++ fn))
  if filter_conditions.isEmpty then
    .ok { question := question
          answer := "I couldn't find any processed papers in this session. Please add and process some papers first."
          sources := []
          metadata := empty_scope_metadata session_files }
  else
    let query_result : Except String (List PMatch) :=
      match filteredQuery with
      | .ok ms => .ok ms
      | .error _ => fallbackQuery
    match query_result with
    | .error e =>
        .error ⟨500, "Error processing session-scoped question: 500: Failed to query vector store: " ++ e⟩
    | .ok ms =>
        if ms.isEmpty then
          .ok { question := question
                answer := "I couldn't find any relevant information in the papers from this session. Please make sure the papers are properly processed for RAG."
                sources := []
                metadata := empty_scope_metadata session_files }
        else
          let retrieved_docs := ms.filterMap (fun m =>
            let doc_content := match mget m.metadata "text" with
              | some v => v
              | Option.none => (mget m.metadata "text_content").getD (.str "")
            if pyTruthy doc_content then
              some (⟨pyStr doc_content,
                mset m.metadata "relevance_score" m.score⟩ : PyDoc)
            else Option.none)
          let reranked_docs :=
            match reranker with
            | Option.none => retrieved_docs
            | some rr =>
                let valid_documents :=
                  retrieved_docs.filterMap prepare_document_for_reranking
                if valid_documents.isEmpty then retrieved_docs
                else
                  match rr valid_documents with
                  | .ok ds => ds
                  | .error _ => retrieved_docs
          let answer := match llmOutcome with
            | .ok a => a
            | .error e =>
                "I found relevant information in the session papers, but encountered an error generating a response. Please try rephrasing your question. Error: " ++ e
          let top5 := reranked_docs.take 5
          .ok { question := question
                answer := answer
                sources := build_sources 0 top5
                metadata :=
                  [("total_sources", .int reranked_docs.length),
                   ("model_used", .str LLM_MODEL),
                   ("reranked", .bool reranker.isSome),
                   ("sections_referenced", .list (collect_sections top5)),
                   ("citations_found", .list (collect_citations top5)),
                   ("papers_referenced", .list (collect_papers top5)),
                   ("session_scoped", .bool true),
                   ("session_files_searched", .list (session_files.map PyVal.str)),
                   ("research_paper_aware", .bool true)] }

/-- A row of `get_session_papers_with_rag_status`: the fields the endpoint
reads (`p.get("rag_status")`, `p["rag_file_name"]`). -/
structure SessionPaper where
  rag_status : Option String
  rag_file_name : Option String
  deriving DecidableEq

/-- The session RAG flag row (`rag_status.get("is_rag_enabled", False)`). -/
structure RagStatus where
  is_rag_enabled : Bool

/-- `session_files` as the endpoint computes it (session_rag.py lines
510-520): file names of papers whose `rag_status` is `"completed"` and whose
`rag_file_name` is truthy. -/
def session_files_of (papers : List SessionPaper) : List String :=
  (papers.filter (fun p => p.rag_status = some "completed")).filterMap
    (fun p => match p.rag_file_name with
      | some fn => if fn = "" then Option.none else some fn
      | Option.none => Option.none)

/-- The endpoint `ask_session_rag_question` (session_rag.py lines 490-553):
gate on the session RAG flag, gate on having completed papers, delegate to
`ask_question_session_scoped`, then update the response metadata. An
`HTTPException` from the service propagates unchanged. -/
def ask_session_rag_question (session_id : Int) (question : String)
    (rag_status : Option RagStatus) (papers : List SessionPaper)
    (filteredQuery fallbackQuery : Except String (List PMatch))
    (reranker : Option (List PyDoc → Except String (List PyDoc)))
    (llmOutcome : Except String String) (processing_time_ms : Int) :
    Except HTTPException QuestionResponse :=
  if !((rag_status.map (·.is_rag_enabled)).getD false) then
    .error ⟨400, "RAG is not enabled for this session. Please enable RAG first."⟩
  else
    let processed_papers := papers.filter (fun p => p.rag_status = some "completed")
    if processed_papers.isEmpty then
      .error ⟨400, "No processed papers found in this session. Please process some papers first."⟩
    else
      let session_files := session_files_of papers
      match ask_question_session_scoped question session_files filteredQuery
          fallbackQuery reranker llmOutcome with
      | .error e => .error e
      | .ok result =>
          let sources_used := result.sources.map (fun s => s.source.getD "")
          let m := result.metadata
          let m := mset m "session_id" (.int session_id)
          let m := mset m "session_papers_used"
            (.int ((sources_used.filter (fun s => session_files.contains s)).length))
          let m := mset m "total_session_papers" (.int processed_papers.length)
          let m := mset m "processing_time_ms" (.int processing_time_ms)
          let m := mset m "used_rag" (.bool true)
          .ok { result with metadata := m }

/-- Projection used to state counterexamples: the `source` fields of the
returned sources (empty on error). -/
def resultSources (r : Except HTTPException QuestionResponse) : List (Option String) :=
  match r with
  | .ok resp => resp.sources.map (·.source)
  | .error _ => []

lemma cleanValueForPinecone_safe {v w : PyVal}
    (h : cleanValueForPinecone v = some w) : PineconeSafe w := by
  cases v with
  | none => simp [cleanValueForPinecone] at h
  | bool b => cases h; trivial
  | int n => cases h; trivial
  | float r => cases h; trivial
  | str s => cases h; trivial
  | dict kvs => cases h; trivial
  | list xs =>
      simp only [cleanValueForPinecone] at h
      cases hm : ((xs.filter (fun x => !x.isNone)).map
          (fun x => PyVal.str (pyStr x))).isEmpty with
      | true => rw [if_pos hm] at h; exact absurd h (by simp)
      | false =>
          rw [if_neg (by simp [hm])] at h
          cases h
          refine ⟨by simpa [List.isEmpty_iff] using hm, ?_⟩
          intro x hx
          rcases List.mem_map.mp hx with ⟨y, _, hy⟩
          exact ⟨pyStr y, hy.symm⟩

lemma cleanValueForPinecone_eq_none_iff (v : PyVal) :
    cleanValueForPinecone v = Option.none ↔
      v = PyVal.none ∨
      ∃ xs, v = PyVal.list xs ∧ xs.filter (fun x => !x.isNone) = [] := by
  cases v with
  | none => simp [cleanValueForPinecone]
  | bool b => simp [cleanValueForPinecone]
  | int n => simp [cleanValueForPinecone]
  | float r => simp [cleanValueForPinecone]
  | str s => simp [cleanValueForPinecone]
  | dict kvs => simp [cleanValueForPinecone]
  | list xs =>
      simp only [cleanValueForPinecone]
      constructor
      · intro h
        refine Or.inr ⟨xs, rfl, ?_⟩
        cases hm : xs.filter (fun x => !x.isNone) with
        | nil => rfl
        | cons a as =>
            rw [hm] at h
            simp at h
      · rintro (h | ⟨ys, hys, hfil⟩)
        · cases h
        · cases hys
          rw [hfil]
          rfl

/-- Every element of a `clean_metadata_for_pinecone` list is one of a
string, int, float, or bool, or a non-empty list of strings. -/
lemma clean_metadata_for_pinecone_safe (m : List (String × PyVal)) :
    ∀ p ∈ clean_metadata_for_pinecone m, PineconeSafe p.2 := by
  intro p hp
  rcases List.mem_filterMap.mp hp with ⟨⟨k, v⟩, _, hf⟩
  rcases Option.map_eq_some'.mp hf with ⟨w, hw, hpw⟩
  cases hpw
  exact cleanValueForPinecone_safe hw

lemma clean_metadata_for_pinecone_keys (m : List (String × PyVal)) :
    (clean_metadata_for_pinecone m).map Prod.fst
      = (m.filter (fun p => (cleanValueForPinecone p.2).isSome)).map Prod.fst := by
  induction m with
  | nil => rfl
  | cons p rest ih =>
      obtain ⟨k, v⟩ := p
      cases hv : cleanValueForPinecone v with
      | none =>
          simp [clean_metadata_for_pinecone, List.filterMap_cons, hv,
            List.filter_cons] at ih ⊢
          exact ih
      | some w =>
          simp [clean_metadata_for_pinecone, List.filterMap_cons, hv,
            List.filter_cons] at ih ⊢
          exact ih

/-- Claim C5: the output of the Pinecone metadata sanitizer contains only
values that are a string, an integer, a float, a boolean, or a non-empty list
of non-null strings; a key is kept exactly when its value does not sanitize
away, the values that sanitize away are precisely `None` and lists with no
non-`None` element (so `None`-valued keys and lists that become empty are
omitted), and dict values are serialized to their string representation. -/
theorem claim_C5_pinecone_sanitizer_shape (m : List (String × PyVal)) :
    (∀ p ∈ clean_metadata_for_pinecone m, PineconeSafe p.2) ∧
    ((clean_metadata_for_pinecone m).map Prod.fst
      = (m.filter (fun p => (cleanValueForPinecone p.2).isSome)).map Prod.fst) ∧
    (∀ v, cleanValueForPinecone v = Option.none ↔
      v = PyVal.none ∨
      ∃ xs, v = PyVal.list xs ∧ xs.filter (fun x => !x.isNone) = []) ∧
    (∀ k kvs, (k, PyVal.dict kvs) ∈ m →
      (k, PyVal.str (pyStr (PyVal.dict kvs))) ∈ clean_metadata_for_pinecone m) := by
  refine ⟨clean_metadata_for_pinecone_safe m, clean_metadata_for_pinecone_keys m,
    cleanValueForPinecone_eq_none_iff, ?_⟩
  intro k kvs hmem
  exact List.mem_filterMap.mpr ⟨(k, PyVal.dict kvs), hmem, rfl⟩

/-- Witness for C5 at a concrete metadata mapping. -/
theorem claim_C5_pinecone_sanitizer_shape_witness :
    ("b", PyVal.str (pyStr (PyVal.dict [("x", PyVal.int 1)]))) ∈
      clean_metadata_for_pinecone
        [("b", PyVal.dict [("x", PyVal.int 1)]), ("a", PyVal.none)] ∧
    PineconeSafe (PyVal.str (pyStr (PyVal.dict [("x", PyVal.int 1)]))) := by
  have h := claim_C5_pinecone_sanitizer_shape
    [("b", PyVal.dict [("x", PyVal.int 1)]), ("a", PyVal.none)]
  have hmem := h.2.2.2 "b" [("x", PyVal.int 1)] (List.Mem.head _)
  exact ⟨hmem, h.1 _ hmem⟩

lemma filter_map_str_of_all_str :
    ∀ l : List PyVal, (∀ x ∈ l, ∃ s, x = PyVal.str s) →
      (l.filter (fun x => !x.isNone)).map (fun x => PyVal.str (pyStr x)) = l := by
  intro l
  induction l with
  | nil => intro _; rfl
  | cons a as ih =>
      intro h
      rcases h a (List.Mem.head _) with ⟨s, hs⟩
      subst hs
      have hcond : (!(PyVal.str s).isNone) = true := rfl
      simp only [List.filter_cons, hcond, if_pos, List.map_cons]
      rw [ih (fun x hx => h x (List.Mem.tail _ hx))]
      rfl

lemma cleanValueForPinecone_idem {v w : PyVal}
    (h : cleanValueForPinecone v = some w) :
    cleanValueForPinecone w = some w := by
  cases v with
  | none => simp [cleanValueForPinecone] at h
  | bool b => cases h; rfl
  | int n => cases h; rfl
  | float r => cases h; rfl
  | str s => cases h; rfl
  | dict kvs => cases h; rfl
  | list xs =>
      have hsafe := cleanValueForPinecone_safe h
      simp only [cleanValueForPinecone] at h
      cases hm : ((xs.filter (fun x => !x.isNone)).map
          (fun x => PyVal.str (pyStr x))).isEmpty with
      | true => rw [if_pos hm] at h; exact absurd h (by simp)
      | false =>
          rw [if_neg (by simp [hm])] at h
          cases h
          rcases hsafe with ⟨hne, hall⟩
          simp only [cleanValueForPinecone]
          rw [filter_map_str_of_all_str _ hall]
          rw [if_neg (by simpa [List.isEmpty_iff] using hne)]

/-- Claim C6: the Pinecone metadata sanitizer is idempotent — sanitizing an
already-sanitized mapping returns it unchanged. -/
theorem claim_C6_pinecone_sanitizer_idempotent (m : List (String × PyVal)) :
    clean_metadata_for_pinecone (clean_metadata_for_pinecone m)
      = clean_metadata_for_pinecone m := by
  induction m with
  | nil => rfl
  | cons p rest ih =>
      obtain ⟨k, v⟩ := p
      cases hv : cleanValueForPinecone v with
      | none =>
          simp only [clean_metadata_for_pinecone, List.filterMap_cons, hv,
            Option.map_none'] at ih ⊢
          exact ih
      | some w =>
          have hw := cleanValueForPinecone_idem hv
          simp only [clean_metadata_for_pinecone, List.filterMap_cons, hv,
            Option.map_some'] at ih ⊢
          simp only [List.filterMap_cons, hw, Option.map_some']
          exact congrArg (List.cons (k, w)) ih

lemma find?_first {α : Type} (p : α → Bool) :
    ∀ (l : List α) (a : α), l.find? p = some a →
      ∃ pre suf, l = pre ++ a :: suf ∧ (∀ x ∈ pre, p x = false) ∧ p a = true := by
  intro l
  induction l with
  | nil => intro a h; simp at h
  | cons b bs ih =>
      intro a h
      cases hb : p b with
      | true =>
          rw [List.find?_cons_of_pos _ hb] at h
          cases h
          exact ⟨[], bs, rfl, by simp, hb⟩
      | false =>
          rw [List.find?_cons_of_neg _ (by simp [hb])] at h
          rcases ih a h with ⟨pre, suf, hl, hpre, hpa⟩
          refine ⟨b :: pre, suf, by rw [hl]; rfl, ?_, hpa⟩
          intro x hx
          rcases List.mem_cons.mp hx with hx | hx
          · subst hx; exact hb
          · exact hpre x hx

/-- Claim C8 (corrected): the extracted title is the first line among the
first five non-empty stripped lines whose length is strictly greater than 20
(i.e. at least 21) and which does not start with `arXiv:`; if no such line
exists the title is the empty string. -/
theorem claim_C8_title_first_qualifying_line (text : String) :
    (extract_paper_metadata_title text = "" ∧
      ∀ l ∈ ((((pySplitNl text).map pyStrip).filter (fun l => l ≠ "")).take 5),
        (l.data.length > 20 && !(pyStartsWith l "arXiv:")) = false) ∨
    (∃ pre l suf,
      ((((pySplitNl text).map pyStrip).filter (fun l => l ≠ "")).take 5)
        = pre ++ l :: suf ∧
      (l.data.length > 20 && !(pyStartsWith l "arXiv:")) = true ∧
      (∀ x ∈ pre, (x.data.length > 20 && !(pyStartsWith x "arXiv:")) = false) ∧
      extract_paper_metadata_title text = l) := by
  simp only [extract_paper_metadata_title]
  cases h : ((((pySplitNl text).map pyStrip).filter (fun l => l ≠ "")).take 5).find?
      (fun line => line.data.length > 20 && !(pyStartsWith line "arXiv:")) with
  | none =>
      left
      refine ⟨rfl, ?_⟩
      intro l hl
      have := List.find?_eq_none.mp h l hl
      simpa using this
  | some line =>
      right
      rcases find?_first _ _ _ h with ⟨pre, suf, hl, hpre, hp⟩
      exact ⟨pre, line, suf, hl, hp, hpre, rfl⟩

/-- Counterexample to C8 as stated: a first line of exactly 20 characters
satisfies the claim's "length at least 20" condition, yet the code (which
requires `len(line) > 20`) extracts no title. -/
theorem claim_C8_counterexample :
    extract_paper_metadata_title "aaaaaaaaaaaaaaaaaaaa" = "" ∧
    (((pySplitNl "aaaaaaaaaaaaaaaaaaaa").map pyStrip).filter (fun l => l ≠ ""))
      = ["aaaaaaaaaaaaaaaaaaaa"] ∧
    ("aaaaaaaaaaaaaaaaaaaa" : String).data.length = 20 ∧
    pyStartsWith "aaaaaaaaaaaaaaaaaaaa" "arXiv:" = false := by
  refine ⟨by decide, by decide, by decide, by decide⟩

lemma foldl_basename_no_slash :
    ∀ (l : List Char) (acc : List Char), (∀ c ∈ l, c ≠ '/') →
      l.foldl (fun acc c => if c = '/' then [] else acc ++ [c]) acc = acc ++ l := by
  intro l
  induction l with
  | nil => intro acc _; simp
  | cons c cs ih =>
      intro acc h
      have hc : c ≠ '/' := h c (List.Mem.head _)
      simp only [List.foldl_cons, if_neg hc]
      rw [ih (acc ++ [c]) (fun x hx => h x (List.Mem.tail _ hx))]
      simp

lemma basename_no_slash (s : String) (h : ∀ c ∈ s.data, c ≠ '/') :
    basename s = s := by
  unfold basename
  rw [foldl_basename_no_slash s.data [] h]
  cases s
  rfl

lemma removePdf_append_pdf :
    ∀ (l : List Char), hasPdf l = false →
      removePdf (l ++ ['.', 'p', 'd', 'f']) = l := by
  intro l
  induction l with
  | nil => intro _; rfl
  | cons c cs ih =>
      intro h
      have hno : ∀ rest, c = '.' → cs = 'p' :: 'd' :: 'f' :: rest → False := by
        intro rest hc hcs
        subst hc
        subst hcs
        simp [hasPdf] at h
      have hcs' : hasPdf cs = false := by
        rw [hasPdf.eq_2 c cs hno] at h
        exact h
      have hno2 : ∀ rest, c = '.' →
          cs ++ ['.', 'p', 'd', 'f'] = 'p' :: 'd' :: 'f' :: rest → False := by
        intro rest hc hcat
        cases cs with
        | nil => simp at hcat
        | cons c2 cs2 =>
            simp only [List.cons_append, List.cons.injEq] at hcat
            obtain ⟨hc2, hcat2⟩ := hcat
            cases cs2 with
            | nil => simp at hcat2
            | cons c3 cs3 =>
                simp only [List.cons_append, List.cons.injEq] at hcat2
                obtain ⟨hc3, hcat3⟩ := hcat2
                cases cs3 with
                | nil => simp at hcat3
                | cons c4 cs4 =>
                    simp only [List.cons_append, List.cons.injEq] at hcat3
                    obtain ⟨hc4, -⟩ := hcat3
                    exact hno cs4 hc (by rw [hc2, hc3, hc4])
      calc removePdf ((c :: cs) ++ ['.', 'p', 'd', 'f'])
          = c :: removePdf (cs ++ ['.', 'p', 'd', 'f']) :=
            removePdf.eq_2 c (cs ++ ['.', 'p', 'd', 'f']) hno2
        _ = c :: cs := by rw [ih hcs']

/-- Claim C9 (corrected): `paper_id` is the basename with every occurrence of
the substring `.pdf` removed; in particular, when the basename contains
`.pdf` only as its trailing extension, the result is the basename without
that extension. -/
theorem claim_C9_paper_id_strips_trailing_pdf (b : String)
    (h1 : hasPdf b.data = false) (h2 : ∀ c ∈ b.data, c ≠ '/') :
    extract_paper_metadata_paper_id (b ++ ".pdf") = b := by
  unfold extract_paper_metadata_paper_id
  have hslash : ∀ c ∈ (b ++ ".pdf").data, c ≠ '/' := by
    intro c hc
    rw [String.data_append] at hc
    rcases List.mem_append.mp hc with hc | hc
    · exact h2 c hc
    · intro he
      subst he
      exact absurd hc (by decide)
  rw [basename_no_slash _ hslash, String.data_append]
  have : (".pdf" : String).data = ['.', 'p', 'd', 'f'] := by decide
  rw [this, removePdf_append_pdf b.data h1]

/-- Witness for C9 at a concrete basename. -/
theorem claim_C9_paper_id_strips_trailing_pdf_witness :
    hasPdf ("foo" : String).data = false ∧
    (∀ c ∈ ("foo" : String).data, c ≠ '/') ∧
    extract_paper_metadata_paper_id ("foo" ++ ".pdf") = "foo" :=
  ⟨by decide, by decide,
    claim_C9_paper_id_strips_trailing_pdf "foo" (by decide) (by decide)⟩

/-- Counterexample to C9 as stated: `replace('.pdf', '')` removes every
occurrence of `.pdf`, not only the trailing extension, so the basename
`foo.pdf.pdf` yields `foo`, not `foo.pdf`. -/
theorem claim_C9_counterexample :
    extract_paper_metadata_paper_id "foo.pdf.pdf" = "foo" ∧
    ("foo" : String) ≠ "foo.pdf" := by
  refine ⟨by decide, by decide⟩

lemma serialize_value_cutoff (v : PyVal) (d : Nat) (h : 5 < d) :
    serialize_value v d = .str (pyStr v) := by
  simp only [serialize_value.eq_def]
  rw [if_pos h]

mutual

theorem pyDepth_serialize_le (v : PyVal) (d : Nat) :
    pyDepth (serialize_value v d) ≤ 6 - d := by
  simp only [serialize_value.eq_def]
  by_cases h : d > 5
  · rw [if_pos h]
    simp [pyDepth]
  · rw [if_neg h]
    cases v with
    | none => simp [pyDepth]
    | bool b => simp [pyDepth]
    | int n => simp [pyDepth]
    | float r => simp [pyDepth]
    | str s => simp [pyDepth]
    | list xs =>
        have hb := pyDepthList_serialize_le xs (d + 1)
        simp only [pyDepth]
        omega
    | dict kvs =>
        have hb := pyDepthDict_serialize_le kvs (d + 1)
        simp only [pyDepth]
        omega

theorem pyDepthList_serialize_le (xs : List PyVal) (d : Nat) :
    pyDepthList (serialize_list xs d) ≤ 6 - d := by
  cases xs with
  | nil => simp [serialize_list, pyDepthList]
  | cons v vs =>
      have h1 := pyDepth_serialize_le v d
      have h2 := pyDepthList_serialize_le vs d
      simp only [serialize_list, pyDepthList]
      omega

theorem pyDepthDict_serialize_le (kvs : List (String × PyVal)) (d : Nat) :
    pyDepthDict (serialize_dict kvs d) ≤ 6 - d := by
  cases kvs with
  | nil => simp [serialize_dict, pyDepthDict]
  | cons kv rest =>
      obtain ⟨k, v⟩ := kv
      have h1 := pyDepth_serialize_le v d
      have h2 := pyDepthDict_serialize_le rest d
      simp only [serialize_dict, pyDepthDict]
      omega

end

/-- Claim C10: the JSON metadata cleaner is total on the embedded value
space: every key of the input appears (in order) in the output, values at
depth greater than 5 are cut off to their string representation, and the
serialized output has bounded structural depth (at most `6 - d` below a node
entered at depth `d`), which is the sense in which the depth guard makes the
recursion terminate on arbitrarily deep inputs. -/
theorem claim_C10_json_cleaner_total_and_cutoff (m : List (String × PyVal)) :
    ((clean_metadata_for_json m).map Prod.fst = m.map Prod.fst) ∧
    (∀ v d, 5 < d → serialize_value v d = .str (pyStr v)) ∧
    (∀ v d, pyDepth (serialize_value v d) ≤ 6 - d) := by
  refine ⟨?_, fun v d h => serialize_value_cutoff v d h, pyDepth_serialize_le⟩
  induction m with
  | nil => rfl
  | cons p rest ih =>
      simp only [clean_metadata_for_json, List.map_cons] at ih ⊢
      rw [ih]

/-- Claim C7: when the hybrid upsert of a batch fails at the transport, the
retry is sent with the same ids and the same per-record metadata (dense
only); and when the dense retry also fails, its error is the batch result
(the batch is not counted as upserted). -/
theorem claim_C7_hybrid_upsert_fallback {V S E : Type} (e : E)
    (denseOutcome : Except E Unit) (n : Nat) (ids : Nat → String)
    (vectors : Nat → V) (metadata_list : Nat → List (String × PyVal))
    (sparse_vectors : Option (Nat → S)) (sparse_len : Nat)
    (upserted_count : Nat) :
    (∃ p1 p2,
      (upsert_one_batch (Except.error e) denseOutcome n ids vectors
        metadata_list sparse_vectors sparse_len upserted_count).2 = [p1, p2] ∧
      payloadIds p2 = payloadIds p1 ∧
      payloadMetadata p2 = payloadMetadata p1) ∧
    (∀ e2, denseOutcome = Except.error e2 →
      (upsert_one_batch (Except.error e) denseOutcome n ids vectors
        metadata_list sparse_vectors sparse_len upserted_count).1
        = Except.error e2) ∧
    (∀ u, denseOutcome = Except.ok u →
      (upsert_one_batch (Except.error e) denseOutcome n ids vectors
        metadata_list sparse_vectors sparse_len upserted_count).1
        = Except.ok (upserted_count + n)) := by
  refine ⟨?_, ?_, ?_⟩
  · refine ⟨UpsertPayload.hybrid (vectors_to_upsert n ids vectors metadata_list
        sparse_vectors sparse_len),
      UpsertPayload.dense (dense_vectors_only n ids vectors metadata_list), ?_, ?_, ?_⟩
    · cases denseOutcome <;> rfl
    · simp [payloadIds, vectors_to_upsert, dense_vectors_only, List.map_map]
    · simp [payloadMetadata, vectors_to_upsert, dense_vectors_only, List.map_map]
  · intro e2 h
    subst h
    rfl
  · intro u h
    subst h
    rfl

/-- Witness for C7 at a concrete batch. -/
theorem claim_C7_hybrid_upsert_fallback_witness :
    (upsert_one_batch (Except.error "hybrid failed") (Except.error "dense failed")
        2 (fun j => toString j) (fun _ => (0 : Nat)) (fun _ => [])
        (Option.none : Option (Nat → Nat)) 0 7).1
      = Except.error "dense failed" :=
  (@claim_C7_hybrid_upsert_fallback Nat Nat String "hybrid failed"
    (Except.error "dense failed") 2 (fun j => toString j) (fun _ => (0 : Nat))
    (fun _ => []) Option.none 0 7).2.1 "dense failed" rfl

/-- Claim C2 (corrected): when RAG is disabled for the session (no status
row, or flag false), or when the session has no papers with completed RAG
status, the endpoint rejects with an HTTP 400 error carrying a fixed detail
message — which in the disabled case contains the phrase "not enabled" — and
the result does not depend on the LLM or vector-store outcomes (so the LLM is
not called). The response is an error, not a plain message. -/
theorem claim_C2_scope_empty_is_http_400 (session_id : Int) (question : String)
    (papers : List SessionPaper)
    (fq fb : Except String (List PMatch))
    (rr : Option (List PyDoc → Except String (List PyDoc)))
    (llm : Except String String) (t : Int) :
    (∀ rag_status : Option RagStatus,
      (rag_status.map (·.is_rag_enabled)).getD false = false →
      ask_session_rag_question session_id question rag_status papers fq fb rr llm t
        = Except.error
            ⟨400, "RAG is not enabled for this session. Please enable RAG first."⟩) ∧
    (∀ rs : RagStatus, rs.is_rag_enabled = true →
      papers.filter (fun p => p.rag_status = some "completed") = [] →
      ask_session_rag_question session_id question (some rs) papers fq fb rr llm t
        = Except.error
            ⟨400, "No processed papers found in this session. Please process some papers first."⟩) ∧
    strContainsSub "RAG is not enabled for this session. Please enable RAG first."
      "not enabled" = true := by
  refine ⟨?_, ?_, by decide⟩
  · intro rag_status h
    unfold ask_session_rag_question
    rw [h]
    rfl
  · intro rs hen hemp
    unfold ask_session_rag_question
    simp only [Option.map_some', Option.getD_some, hen, Bool.not_true,
      Bool.false_eq_true, if_false]
    rw [hemp]
    rfl

/-- Witness for C2: a disabled session and a session without completed
papers, at concrete inputs. -/
theorem claim_C2_scope_empty_is_http_400_witness :
    ((some (⟨false⟩ : RagStatus)).map (·.is_rag_enabled)).getD false = false ∧
    ask_session_rag_question 1 "q" (some ⟨false⟩) [⟨some "completed", some "a.pdf"⟩]
        (Except.ok []) (Except.ok []) Option.none (Except.ok "answer") 0
      = Except.error
          ⟨400, "RAG is not enabled for this session. Please enable RAG first."⟩ ∧
    ask_session_rag_question 1 "q" (some ⟨true⟩) [⟨some "pending", some "a.pdf"⟩]
        (Except.ok []) (Except.ok []) Option.none (Except.ok "answer") 0
      = Except.error
          ⟨400, "No processed papers found in this session. Please process some papers first."⟩ :=
  ⟨rfl,
    (claim_C2_scope_empty_is_http_400 1 "q" [⟨some "completed", some "a.pdf"⟩]
      (Except.ok []) (Except.ok []) Option.none (Except.ok "answer") 0).1
      (some ⟨false⟩) rfl,
    (claim_C2_scope_empty_is_http_400 1 "q" [⟨some "pending", some "a.pdf"⟩]
      (Except.ok []) (Except.ok []) Option.none (Except.ok "answer") 0).2.1
      ⟨true⟩ rfl (by decide)⟩

/-- Counterexample to C2 as stated: with RAG disabled the endpoint raises an
HTTP 400 error — it does not return a non-error response — so "does not
surface an error to the caller" is false. -/
theorem claim_C2_counterexample :
    ask_session_rag_question 1 "q" (some ⟨false⟩) [⟨some "completed", some "a.pdf"⟩]
        (Except.ok []) (Except.ok []) Option.none (Except.ok "answer") 0
      = Except.error
          ⟨400, "RAG is not enabled for this session. Please enable RAG first."⟩ ∧
    (ask_session_rag_question 1 "q" (some ⟨false⟩) [⟨some "completed", some "a.pdf"⟩]
        (Except.ok []) (Except.ok []) Option.none (Except.ok "answer") 0).isOk
      = false := by
  exact ⟨rfl, rfl⟩

lemma mget_mset_self (m : List (String × PyVal)) (k : String) (v : PyVal) :
    mget (mset m k v) k = some v := by
  induction m with
  | nil => simp [mset, mget, List.find?]
  | cons p rest ih =>
      obtain ⟨k', v'⟩ := p
      by_cases h : k' = k
      · subst h
        simp [mset, mget, List.find?]
      · simp only [mset, if_neg h]
        simp only [mget, List.find?] at ih ⊢
        rw [decide_eq_false h]
        exact ih

lemma mget_mset_ne (m : List (String × PyVal)) (k k' : String) (v : PyVal)
    (h : k' ≠ k) : mget (mset m k v) k' = mget m k' := by
  induction m with
  | nil => simp [mset, mget, List.find?, Ne.symm h]
  | cons p rest ih =>
      obtain ⟨k0, v0⟩ := p
      by_cases h0 : k0 = k
      · subst h0
        simp only [mset, if_pos rfl]
        simp only [mget, List.find?]
        rw [decide_eq_false (Ne.symm h)]
      · simp only [mset, if_neg h0]
        by_cases h1 : k0 = k'
        · subst h1
          simp [mget, List.find?]
        · simp only [mget, List.find?] at ih ⊢
          rw [decide_eq_false h1]
          exact ih

lemma mget_foldl_mset_of_not_mem (pm : List (String × PyVal))
    (m : List (String × PyVal)) (k : String) (h : ∀ kv ∈ pm, kv.1 ≠ k) :
    mget (pm.foldl (fun acc kv => mset acc kv.1 kv.2) m) k = mget m k := by
  induction pm generalizing m with
  | nil => rfl
  | cons kv rest ih =>
      simp only [List.foldl_cons]
      rw [ih (mset m kv.1 kv.2) (fun x hx => h x (List.Mem.tail _ hx))]
      exact mget_mset_ne m kv.1 k kv.2 (Ne.symm (h kv (List.Mem.head _)))

lemma update_chunk_metadata_page_content (chunk : PyDoc)
    (sn ss : Option String) (cits : List String) (figs : List FigTable)
    (ct : String) (pm : List (String × PyVal)) :
    (update_chunk_metadata chunk sn ss cits figs ct pm).page_content
      = chunk.page_content := rfl

lemma update_chunk_metadata_chunk_type (chunk : PyDoc)
    (sn ss : Option String) (cits : List String) (figs : List FigTable)
    (ct : String) (pm : List (String × PyVal))
    (hpm : ∀ kv ∈ pm, kv.1 ≠ "chunk_type") :
    mget (update_chunk_metadata chunk sn ss cits figs ct pm).metadata "chunk_type"
      = some (.str ct) := by
  unfold update_chunk_metadata
  rw [mget_foldl_mset_of_not_mem _ _ _ hpm]
  exact mget_mset_self _ _ _

lemma update_chunk_metadata_section (chunk : PyDoc)
    (sn ss : Option String) (cits : List String) (figs : List FigTable)
    (ct : String) (pm : List (String × PyVal))
    (hpm : ∀ kv ∈ pm, kv.1 ≠ "section") :
    mget (update_chunk_metadata chunk sn ss cits figs ct pm).metadata "section"
      = some (.str (sn.getD "")) := by
  unfold update_chunk_metadata
  rw [mget_foldl_mset_of_not_mem _ _ _ hpm]
  rw [mget_mset_ne _ _ _ _ (by decide)]
  rw [mget_mset_ne _ _ _ _ (by decide)]
  rw [mget_mset_ne _ _ _ _ (by decide)]
  rw [mget_mset_ne _ _ _ _ (by decide)]
  exact mget_mset_self _ _ _

lemma pyStartsWith_append (a b : String) : pyStartsWith (a ++ b) a = true := by
  unfold pyStartsWith
  rw [String.data_append]
  exact List.isPrefixOf_iff_prefix.mpr (List.prefix_append _ _)

lemma section_based_chunks_cons (split : Nat → Nat → String → List String)
    (doc : PyDoc) (text_lines : List String) (citations : List String)
    (figures_tables : List FigTable) (paper_metadata : List (String × PyVal))
    (s : PSection) (rest : List PSection) :
    section_based_chunks split doc text_lines citations figures_tables
        paper_metadata (s :: rest)
      = (if (sliceText text_lines s.line_number
            (match rest with
             | [] => text_lines.length
             | s' :: _ => s'.line_number)).data.length > 1200 then
          (split 800 150 (sliceText text_lines s.line_number
            (match rest with
             | [] => text_lines.length
             | s' :: _ => s'.line_number))).map (fun t =>
            update_chunk_metadata
              ⟨sectionContext s.name ++ t, doc.metadata⟩
              (some s.name) Option.none citations figures_tables
              "section_content" paper_metadata)
        else
          [update_chunk_metadata
            ⟨sectionContext s.name ++ sliceText text_lines s.line_number
              (match rest with
               | [] => text_lines.length
               | s' :: _ => s'.line_number), doc.metadata⟩
            (some s.name) Option.none citations figures_tables
            "section_content" paper_metadata])
        ++ section_based_chunks split doc text_lines citations figures_tables
            paper_metadata rest := rfl

/-- Claim C4: for a document with detected sections, the chunker emits, per
detected section in order, chunks computed from the half-open line range
from the section's own heading line to the next detected heading line (or
the end of the text for the last section): a single prefixed chunk when the
section text has at most 1200 characters, and otherwise one prefixed chunk
per piece of the 800/150 splitter output; and every section chunk carries
`chunk_type = "section_content"`, `section` equal to its section's name, and
text starting with the `"[Section: <name>]\n"` prefix. -/
theorem claim_C4_section_chunking (split : Nat → Nat → String → List String)
    (doc : PyDoc) (sections : List PSection) (citations : List String)
    (figures_tables : List FigTable) (paper_metadata : List (String × PyVal))
    (hpm : ∀ kv ∈ paper_metadata, kv.1 ≠ "chunk_type" ∧ kv.1 ≠ "section") :
    (section_based_chunks split doc (pySplitNl doc.page_content) citations
        figures_tables paper_metadata sections
      = (List.range sections.length).flatMap (fun i =>
          match sections.get? i with
          | Option.none => []
          | some s =>
              let end_line := match sections.get? (i + 1) with
                | some s' => s'.line_number
                | Option.none => (pySplitNl doc.page_content).length
              let section_text :=
                sliceText (pySplitNl doc.page_content) s.line_number end_line
              if section_text.data.length ≤ 1200 then
                [update_chunk_metadata
                  ⟨sectionContext s.name ++ section_text, doc.metadata⟩
                  (some s.name) Option.none citations figures_tables
                  "section_content" paper_metadata]
              else
                (split 800 150 section_text).map (fun t =>
                  update_chunk_metadata
                    ⟨sectionContext s.name ++ t, doc.metadata⟩
                    (some s.name) Option.none citations figures_tables
                    "section_content" paper_metadata))) ∧
    (∀ c ∈ section_based_chunks split doc (pySplitNl doc.page_content) citations
        figures_tables paper_metadata sections,
      mget c.metadata "chunk_type" = some (.str "section_content") ∧
      ∃ s ∈ sections, mget c.metadata "section" = some (.str s.name) ∧
        pyStartsWith c.page_content (sectionContext s.name) = true) := by
  constructor
  · induction sections with
    | nil => rfl
    | cons s rest ih =>
        rw [List.length_cons, List.range_succ_eq_map, List.flatMap_cons,
          List.flatMap_map]
        rw [section_based_chunks_cons]
        rw [ih]
        congr 1
        · cases rest with
          | nil =>
              dsimp only [List.get?]
              by_cases hlen :
                  (sliceText (pySplitNl doc.page_content) s.line_number
                    (pySplitNl doc.page_content).length).data.length ≤ 1200
              · rw [if_neg (by omega), if_pos hlen]
              · rw [if_pos (by omega), if_neg hlen]
          | cons s' rest' =>
              dsimp only [List.get?]
              by_cases hlen :
                  (sliceText (pySplitNl doc.page_content) s.line_number
                    s'.line_number).data.length ≤ 1200
              · rw [if_neg (by omega), if_pos hlen]
              · rw [if_pos (by omega), if_neg hlen]
  · intro c hc
    induction sections with
    | nil => simp [section_based_chunks] at hc
    | cons s rest ih =>
        rw [section_based_chunks_cons] at hc
        rcases List.mem_append.mp hc with hc | hc
        · have hmain : mget c.metadata "chunk_type" = some (.str "section_content") ∧
              mget c.metadata "section" = some (.str s.name) ∧
              pyStartsWith c.page_content (sectionContext s.name) = true := by
            split at hc
            · rcases List.mem_map.mp hc with ⟨t, -, ht⟩
              subst ht
              refine ⟨update_chunk_metadata_chunk_type _ _ _ _ _ _ _
                  (fun kv hkv => (hpm kv hkv).1),
                ?_, ?_⟩
              · rw [update_chunk_metadata_section _ _ _ _ _ _ _
                  (fun kv hkv => (hpm kv hkv).2)]
                rfl
              · rw [update_chunk_metadata_page_content]
                exact pyStartsWith_append _ _
            · rcases List.mem_singleton.mp hc with rfl
              refine ⟨update_chunk_metadata_chunk_type _ _ _ _ _ _ _
                  (fun kv hkv => (hpm kv hkv).1),
                ?_, ?_⟩
              · rw [update_chunk_metadata_section _ _ _ _ _ _ _
                  (fun kv hkv => (hpm kv hkv).2)]
                rfl
              · rw [update_chunk_metadata_page_content]
                exact pyStartsWith_append _ _
          exact ⟨hmain.1, s, List.Mem.head _, hmain.2.1, hmain.2.2⟩
        · rcases ih hc with ⟨h1, s', hs', h2⟩
          exact ⟨h1, s', List.Mem.tail _ hs', h2⟩

/-- Witness for C4 at a concrete one-section document. -/
theorem claim_C4_section_chunking_witness :
    (∀ kv ∈ [(("paper_id" : String), PyVal.str "x")],
      kv.1 ≠ "chunk_type" ∧ kv.1 ≠ "section") ∧
    ∀ c ∈ section_based_chunks (fun _ _ t => [t])
        ⟨"Abstract\nsome text", []⟩ (pySplitNl "Abstract\nsome text") []
        [] [("paper_id", PyVal.str "x")] [⟨"Abstract", 0⟩],
      mget c.metadata "chunk_type" = some (.str "section_content") :=
  ⟨by intro kv hkv; rcases List.mem_singleton.mp hkv with rfl;
      exact ⟨by decide, by decide⟩,
   fun c hc =>
    ((claim_C4_section_chunking (fun _ _ t => [t]) ⟨"Abstract\nsome text", []⟩
      [⟨"Abstract", 0⟩] [] [] [("paper_id", PyVal.str "x")]
      (by intro kv hkv; rcases List.mem_singleton.mp hkv with rfl;
          exact ⟨by decide, by decide⟩)).2 c hc).1⟩

lemma delete_loop_spec (store : List IdxRecord) (ids : List String) :
    delete_loop store ids
      = (ids.length, store.filter (fun r => !ids.contains r.id)) := by
  match ids with
  | [] => simp [delete_loop]
  | i :: rest =>
      have ih := delete_loop_spec
        (store.filter (fun r => !((i :: rest).take BATCH_SIZE).contains r.id))
        ((i :: rest).drop BATCH_SIZE)
      rw [delete_loop]
      rw [ih]
      simp only [Prod.mk.injEq]
      constructor
      · simp only [List.length_take, List.length_drop, List.length_cons]
        omega
      · rw [List.filter_filter]
        apply List.filter_congr
        intro r _
        have hsplit : r.id ∈ (i :: rest) ↔
            (r.id ∈ (i :: rest).take BATCH_SIZE ∨
             r.id ∈ (i :: rest).drop BATCH_SIZE) := by
          conv_lhs => rw [← List.take_append_drop BATCH_SIZE (i :: rest)]
          exact List.mem_append
        simp only [List.contains]
        rw [List.elem_eq_mem, List.elem_eq_mem, List.elem_eq_mem]
        rw [decide_eq_decide.mpr hsplit]
        rw [Bool.decide_or, Bool.not_or, Bool.and_comm]
  termination_by ids.length
  decreasing_by simp [List.length_drop, BATCH_SIZE]; omega

/-- Claim C3 (corrected): `remove_document_chunks` queries with
`top_k = min(10000, total)`; when the index holds at most 10000 vectors this
equals the total, and then the call deletes exactly the records whose
metadata `source` contains the basename, in id batches of `BATCH_SIZE = 100`,
returns their count, and leaves zero matching chunks. -/
theorem claim_C3_remove_document_within_limit (store : List IdxRecord)
    (document_name : String) (h : store.length ≤ 10000) :
    query_top_k store.length = store.length ∧
    (remove_document_chunks store document_name).1
      = (store.filter (matches_document document_name)).length ∧
    ((remove_document_chunks store document_name).2.filter
        (matches_document document_name)) = [] ∧
    (remove_document_chunks store document_name).2
      = store.filter (fun r =>
          !(((store.filter (matches_document document_name)).map
              (fun r => r.id)).contains r.id)) := by
  have htop : query_top_k store.length = store.length := by
    unfold query_top_k
    omega
  have hrem : remove_document_chunks store document_name
      = if (((store.filter (matches_document document_name)).map
            (fun r => r.id)).isEmpty) then (0, store)
        else (((store.filter (matches_document document_name)).map
            (fun r => r.id)).length,
          store.filter (fun r =>
            !(((store.filter (matches_document document_name)).map
                (fun r => r.id)).contains r.id))) := by
    simp only [remove_document_chunks]
    rw [htop, List.take_length]
    by_cases hmt : (((store.filter (matches_document document_name)).map
        (fun r => r.id)).isEmpty)
    · rw [if_pos hmt, if_pos hmt]
    · rw [if_neg hmt, if_neg hmt]
      exact delete_loop_spec store _
  refine ⟨htop, ?_, ?_, ?_⟩
  · rw [hrem]
    by_cases hmt : (((store.filter (matches_document document_name)).map
        (fun r => r.id)).isEmpty)
    · rw [if_pos hmt]
      have : (store.filter (matches_document document_name)).map
          (fun r => r.id) = [] := List.isEmpty_iff.mp hmt
      rw [List.map_eq_nil] at this
      rw [this]
      rfl
    · rw [if_neg hmt]
      exact List.length_map _ _
  · rw [hrem]
    by_cases hmt : (((store.filter (matches_document document_name)).map
        (fun r => r.id)).isEmpty)
    · rw [if_pos hmt]
      have : (store.filter (matches_document document_name)).map
          (fun r => r.id) = [] := List.isEmpty_iff.mp hmt
      rw [List.map_eq_nil] at this
      exact this
    · rw [if_neg hmt]
      rw [List.filter_eq_nil]
      intro r hr
      rcases List.mem_filter.mp hr with ⟨hrs, hcont⟩
      intro hmatch
      have hid : r.id ∈ (store.filter (matches_document document_name)).map
          (fun r => r.id) :=
        List.mem_map.mpr ⟨r, List.mem_filter.mpr ⟨hrs, hmatch⟩, rfl⟩
      rw [← List.elem_iff] at hid
      have hce : ((store.filter (matches_document document_name)).map
            (fun r => r.id)).contains r.id
          = List.elem r.id ((store.filter (matches_document document_name)).map
            (fun r => r.id)) := rfl
      rw [hce, hid] at hcont
      simp at hcont
  · rw [hrem]
    by_cases hmt : (((store.filter (matches_document document_name)).map
        (fun r => r.id)).isEmpty)
    · rw [if_pos hmt]
      have : (store.filter (matches_document document_name)).map
          (fun r => r.id) = [] := List.isEmpty_iff.mp hmt
      rw [this]
      simp
    · rw [if_neg hmt]

/-- Witness for C3 at a concrete two-record index. -/
theorem claim_C3_remove_document_within_limit_witness :
    (([(⟨"a", [("source", PyVal.str "data/input/other.pdf")]⟩ : IdxRecord),
       ⟨"b", [("source", PyVal.str "data/input/P.pdf")]⟩] : List IdxRecord).length
      ≤ 10000) ∧
    (remove_document_chunks
        [(⟨"a", [("source", PyVal.str "data/input/other.pdf")]⟩ : IdxRecord),
         (⟨"b", [("source", PyVal.str "data/input/P.pdf")]⟩ : IdxRecord)] "P.pdf").2.filter
      (matches_document "P.pdf") = [] :=
  ⟨by decide,
    (claim_C3_remove_document_within_limit
      [(⟨"a", [("source", PyVal.str "data/input/other.pdf")]⟩ : IdxRecord),
       (⟨"b", [("source", PyVal.str "data/input/P.pdf")]⟩ : IdxRecord)] "P.pdf"
      (by decide)).2.2.1⟩

/-- Counterexample to C3 as stated: with 10001 vectors the query uses
`top_k = 10000`, not the index total, and a matching record beyond the first
10000 returned matches survives removal, so the deleted count misses it and
a matching chunk remains. -/
theorem claim_C3_counterexample :
    query_top_k (List.replicate 10000
        (⟨"a", [("source", PyVal.str "data/input/other.pdf")]⟩ : IdxRecord)
      ++ [(⟨"b", [("source", PyVal.str "data/input/P.pdf")]⟩ : IdxRecord)]).length = 10000 ∧
    (List.replicate 10000
        (⟨"a", [("source", PyVal.str "data/input/other.pdf")]⟩ : IdxRecord)
      ++ [(⟨"b", [("source", PyVal.str "data/input/P.pdf")]⟩ : IdxRecord)]).length = 10001 ∧
    (10000 : Nat) ≠ 10001 ∧
    remove_document_chunks
        (List.replicate 10000
            (⟨"a", [("source", PyVal.str "data/input/other.pdf")]⟩ : IdxRecord)
          ++ [(⟨"b", [("source", PyVal.str "data/input/P.pdf")]⟩ : IdxRecord)]) "P.pdf"
      = (0, List.replicate 10000
            (⟨"a", [("source", PyVal.str "data/input/other.pdf")]⟩ : IdxRecord)
          ++ [(⟨"b", [("source", PyVal.str "data/input/P.pdf")]⟩ : IdxRecord)]) ∧
    (List.replicate 10000
        (⟨"a", [("source", PyVal.str "data/input/other.pdf")]⟩ : IdxRecord)
      ++ [(⟨"b", [("source", PyVal.str "data/input/P.pdf")]⟩ : IdxRecord)]).filter
        (matches_document "P.pdf")
      = [(⟨"b", [("source", PyVal.str "data/input/P.pdf")]⟩ : IdxRecord)] := by
  have hlen : (List.replicate 10000
      (⟨"a", [("source", PyVal.str "data/input/other.pdf")]⟩ : IdxRecord)
    ++ [(⟨"b", [("source", PyVal.str "data/input/P.pdf")]⟩ : IdxRecord)]).length = 10001 := by
    rw [List.length_append, List.length_replicate]
    decide
  have hA : matches_document "P.pdf"
      (⟨"a", [("source", PyVal.str "data/input/other.pdf")]⟩ : IdxRecord)
      = false := by decide
  have hB : matches_document "P.pdf"
      (⟨"b", [("source", PyVal.str "data/input/P.pdf")]⟩ : IdxRecord)
      = true := by decide
  have hfilrep : (List.replicate 10000
      (⟨"a", [("source", PyVal.str "data/input/other.pdf")]⟩ : IdxRecord)).filter
        (matches_document "P.pdf") = [] := by
    rw [List.filter_replicate, hA]
    rfl
  have hfil : (List.replicate 10000
      (⟨"a", [("source", PyVal.str "data/input/other.pdf")]⟩ : IdxRecord)
    ++ [(⟨"b", [("source", PyVal.str "data/input/P.pdf")]⟩ : IdxRecord)]).filter
      (matches_document "P.pdf")
      = [(⟨"b", [("source", PyVal.str "data/input/P.pdf")]⟩ : IdxRecord)] := by
    rw [List.filter_append, hfilrep, List.filter_cons, hB]
    rfl
  refine ⟨by rw [hlen]; decide, hlen, by decide, ?_, hfil⟩
  simp only [remove_document_chunks]
  rw [hlen]
  have hq : query_top_k 10001 = 10000 := by decide
  rw [hq]
  have htake : (List.replicate 10000
      (⟨"a", [("source", PyVal.str "data/input/other.pdf")]⟩ : IdxRecord)
    ++ [(⟨"b", [("source", PyVal.str "data/input/P.pdf")]⟩ : IdxRecord)]).take 10000
      = List.replicate 10000
        (⟨"a", [("source", PyVal.str "data/input/other.pdf")]⟩ : IdxRecord) := by
    exact List.take_left' (List.length_replicate _ _)
  rw [htake, hfilrep]
  rfl

lemma build_sources_mem :
    ∀ (i : Nat) (ds : List PyDoc) (si : SourceInfo), si ∈ build_sources i ds →
      ∃ j d, d ∈ ds ∧ si = build_source_info j d := by
  intro i ds
  induction ds generalizing i with
  | nil => intro si h; simp [build_sources] at h
  | cons d rest ih =>
      intro si h
      have hstep : build_sources i (d :: rest)
          = build_source_info i d :: build_sources (i + 1) rest := rfl
      rw [hstep] at h
      rcases List.mem_cons.mp h with h | h
      · exact ⟨i, d, List.Mem.head _, h⟩
      · rcases ih (i + 1) si h with ⟨j, d', hd', hsi⟩
        exact ⟨j, d', List.Mem.tail _ hd', hsi⟩

lemma prepare_document_source (doc d : PyDoc)
    (h : prepare_document_for_reranking doc = some d) :
    mget d.metadata "source" = (mget doc.metadata "source").getD (.str "unknown") := by
  unfold prepare_document_for_reranking at h
  by_cases hs : pyStrip doc.page_content = ""
  · rw [if_pos hs] at h
    exact absurd h (by simp)
  · rw [if_neg hs] at h
    cases h
    simp [mget, List.find?]

lemma basename_data_input (fn : String) (h : ∀ c ∈ fn.data, c ≠ '/') :
    basename ("data/input/" ++ fn) = fn := by
  unfold basename
  rw [String.data_append, List.foldl_append]
  have h1 : (("data/input/" : String).data.foldl
      (fun acc c => if c = '/' then [] else acc ++ [c]) []) = [] := by decide
  rw [h1, foldl_basename_no_slash fn.data [] h, List.nil_append]

lemma session_files_mem (papers : List SessionPaper) (fn : String)
    (h : fn ∈ session_files_of papers) :
    ∃ p ∈ papers, p.rag_status = some "completed" ∧ p.rag_file_name = some fn := by
  unfold session_files_of at h
  rcases List.mem_filterMap.mp h with ⟨p, hp, hf⟩
  rcases List.mem_filter.mp hp with ⟨hps, hcomp⟩
  refine ⟨p, hps, by simpa using hcomp, ?_⟩
  cases hrf : p.rag_file_name with
  | none =>
      rw [hrf] at hf
      have hf' : (Option.none : Option String) = some fn := hf
      exact absurd hf' (by simp)
  | some fn' =>
      rw [hrf] at hf
      have hf' : (if fn' = "" then Option.none else some fn') = some fn := hf
      by_cases he : fn' = ""
      · rw [if_pos he] at hf'
        exact absurd hf' (by simp)
      · rw [if_neg he] at hf'
        cases hf'
        rfl

lemma ask_scoped_sources_filtered (question : String) (session_files : List String)
    (ms : List PMatch) (fb : Except String (List PMatch))
    (rr : Option (List PyDoc → Except String (List PyDoc)))
    (llm : Except String String) (resp : QuestionResponse)
    (hms : ∀ m ∈ ms, ∃ fn ∈ session_files,
      mget m.metadata "source" = some (PyVal.str ("data/input/" ++ fn)))
    (hslash : ∀ fn ∈ session_files, ∀ c ∈ fn.data, c ≠ '/')
    (hrr : ∀ f, rr = some f → ∀ ds out, f ds = Except.ok out → ∀ d ∈ out, d ∈ ds)
    (hok : ask_question_session_scoped question session_files (Except.ok ms) fb rr llm
      = Except.ok resp) :
    ∀ si ∈ resp.sources, ∃ fn ∈ session_files, si.source = some fn := by
  simp only [ask_question_session_scoped] at hok
  by_cases hempty :
      ((session_files.map (fun fn => ("source", "data/input/" ++ fn))).isEmpty)
  · rw [if_pos hempty] at hok
    cases hok
    intro si hsi
    exact absurd hsi (by simp)
  · rw [if_neg hempty] at hok
    by_cases hmse : ms.isEmpty
    · rw [if_pos hmse] at hok
      cases hok
      intro si hsi
      exact absurd hsi (by simp)
    · rw [if_neg hmse] at hok
      -- the retrieved documents all carry a scoped source
      have hret : ∀ d ∈ ms.filterMap (fun m =>
          let doc_content := match mget m.metadata "text" with
            | some v => v
            | Option.none => (mget m.metadata "text_content").getD (.str "")
          if pyTruthy doc_content then
            some (⟨pyStr doc_content,
              mset m.metadata "relevance_score" m.score⟩ : PyDoc)
          else Option.none), ∃ fn ∈ session_files,
            mget d.metadata "source" = some (PyVal.str ("data/input/" ++ fn)) := by
        intro d hd
        rcases List.mem_filterMap.mp hd with ⟨m, hm, hf⟩
        by_cases ht : pyTruthy (match mget m.metadata "text" with
          | some v => v
          | Option.none => (mget m.metadata "text_content").getD (.str ""))
        · rw [if_pos ht] at hf
          cases hf
          rcases hms m hm with ⟨fn, hfn, hsrc⟩
          refine ⟨fn, hfn, ?_⟩
          rw [mget_mset_ne _ _ _ _ (by decide)]
          exact hsrc
        · rw [if_neg ht] at hf
          exact absurd hf (by simp)
      -- hence so do the documents entering the source list
      cases hok
      intro si hsi
      rcases build_sources_mem 0 _ si hsi with ⟨j, d, hd, hsi'⟩
      have hd5 := List.take_subset 5 _ hd
      generalize hR : (ms.filterMap (fun m =>
          let doc_content := match mget m.metadata "text" with
            | some v => v
            | Option.none => (mget m.metadata "text_content").getD (.str "")
          if pyTruthy doc_content then
            some (⟨pyStr doc_content,
              mset m.metadata "relevance_score" m.score⟩ : PyDoc)
          else Option.none) : List PyDoc) = retr at hret hd5
      have hscope : ∃ fn ∈ session_files,
          mget d.metadata "source" = some (PyVal.str ("data/input/" ++ fn)) := by
        cases rr with
        | none => exact hret d hd5
        | some f =>
            have hd' : d ∈ (if (retr.filterMap
                  prepare_document_for_reranking).isEmpty then retr
                else match f (retr.filterMap prepare_document_for_reranking) with
                  | .ok ds => ds
                  | .error _ => retr) := hd5
            by_cases hv : (retr.filterMap prepare_document_for_reranking).isEmpty
            · rw [if_pos hv] at hd'
              exact hret d hd'
            · rw [if_neg hv] at hd'
              cases hfv : f (retr.filterMap prepare_document_for_reranking) with
              | ok out =>
                  rw [hfv] at hd'
                  have hdin := hrr f rfl _ _ hfv d hd'
                  rcases List.mem_filterMap.mp hdin with ⟨orig, horig, hprep⟩
                  rcases hret orig horig with ⟨fn, hfn, hsrc⟩
                  refine ⟨fn, hfn, ?_⟩
                  rw [prepare_document_source orig d hprep, hsrc]
                  rfl
              | error e =>
                  rw [hfv] at hd'
                  exact hret d hd'
      rcases hscope with ⟨fn, hfn, hsrc⟩
      refine ⟨fn, hfn, ?_⟩
      rw [hsi']
      show (mget d.metadata "source").map (fun v => basename (pyStr v)) = some fn
      rw [hsrc]
      simp only [Option.map_some']
      rw [show pyStr (PyVal.str ("data/input/" ++ fn)) = "data/input/" ++ fn from rfl]
      rw [basename_data_input fn (hslash fn hfn)]

/-- Claim C1 (corrected): on the execution path where the filtered vector
query succeeds, every source returned by the session-scoped ask operation has
a `source` basename that is the file name of a paper with RAG status
`completed` belonging to the session (assuming the index honors the `$or`
source filter, the reranker returns a subset of its input, and session file
names contain no path separator). On the fallback path — where the filtered
query raises and the query is retried without the filter — this scoping does
NOT hold (see the counterexample). -/
theorem claim_C1_scoped_ask_sources_filtered_path (session_id : Int)
    (question : String) (rs : RagStatus) (papers : List SessionPaper)
    (ms : List PMatch) (fb : Except String (List PMatch))
    (rr : Option (List PyDoc → Except String (List PyDoc)))
    (llm : Except String String) (t : Int) (resp : QuestionResponse)
    (hms : ∀ m ∈ ms, ∃ fn ∈ session_files_of papers,
      mget m.metadata "source" = some (PyVal.str ("data/input/" ++ fn)))
    (hslash : ∀ fn ∈ session_files_of papers, ∀ c ∈ fn.data, c ≠ '/')
    (hrr : ∀ f, rr = some f → ∀ ds out, f ds = Except.ok out → ∀ d ∈ out, d ∈ ds)
    (hok : ask_session_rag_question session_id question (some rs) papers
      (Except.ok ms) fb rr llm t = Except.ok resp) :
    ∀ si ∈ resp.sources, ∃ fn, si.source = some fn ∧
      ∃ p ∈ papers, p.rag_status = some "completed" ∧
        p.rag_file_name = some fn := by
  simp only [ask_session_rag_question, Option.map_some', Option.getD_some] at hok
  by_cases hen : rs.is_rag_enabled
  · rw [hen] at hok
    simp only [Bool.not_true, Bool.false_eq_true, if_false] at hok
    by_cases hproc : (papers.filter (fun p => p.rag_status = some "completed")).isEmpty
    · rw [if_pos hproc] at hok
      exact absurd hok (by simp)
    · rw [if_neg hproc] at hok
      cases hsvc : ask_question_session_scoped question (session_files_of papers)
          (Except.ok ms) fb rr llm with
      | error e =>
          rw [hsvc] at hok
          exact absurd hok (by simp)
      | ok result =>
          rw [hsvc] at hok
          have hsrcs : resp.sources = result.sources := by
            cases hok
            rfl
          intro si hsi
          rw [hsrcs] at hsi
          rcases ask_scoped_sources_filtered question (session_files_of papers)
            ms fb rr llm result hms hslash hrr hsvc si hsi with ⟨fn, hfn, hs⟩
          exact ⟨fn, hs, session_files_mem papers fn hfn⟩
  · rw [Bool.not_eq_true] at hen
    rw [hen] at hok
    simp only [Bool.not_false, if_true] at hok
    exact absurd hok (by simp)

/-- Witness for C1 at a concrete session with one completed paper and one
in-scope match. -/
theorem claim_C1_scoped_ask_sources_filtered_path_witness :
    ∃ resp, ask_session_rag_question 1 "q" (some ⟨true⟩)
        [(⟨some "completed", some "a.pdf"⟩ : SessionPaper)]
        (Except.ok [⟨"id1", PyVal.float "0.5",
          [("source", PyVal.str "data/input/a.pdf"),
           ("text", PyVal.str "hello")]⟩])
        (Except.ok []) Option.none (Except.ok "ans") 0 = Except.ok resp ∧
      ∀ si ∈ resp.sources, ∃ fn, si.source = some fn ∧
        ∃ p ∈ [(⟨some "completed", some "a.pdf"⟩ : SessionPaper)],
          p.rag_status = some "completed" ∧ p.rag_file_name = some fn := by
  have hIsOk : (ask_session_rag_question 1 "q" (some ⟨true⟩)
      [(⟨some "completed", some "a.pdf"⟩ : SessionPaper)]
      (Except.ok [⟨"id1", PyVal.float "0.5",
        [("source", PyVal.str "data/input/a.pdf"),
         ("text", PyVal.str "hello")]⟩])
      (Except.ok []) Option.none (Except.ok "ans") 0).isOk = true := by decide
  cases hrun : ask_session_rag_question 1 "q" (some ⟨true⟩)
      [(⟨some "completed", some "a.pdf"⟩ : SessionPaper)]
      (Except.ok [⟨"id1", PyVal.float "0.5",
        [("source", PyVal.str "data/input/a.pdf"),
         ("text", PyVal.str "hello")]⟩])
      (Except.ok []) Option.none (Except.ok "ans") 0 with
  | error e =>
      rw [hrun] at hIsOk
      exact absurd hIsOk (by simp [Except.isOk, Except.toBool])
  | ok resp =>
      refine ⟨resp, rfl, ?_⟩
      refine claim_C1_scoped_ask_sources_filtered_path 1 "q" ⟨true⟩
        [⟨some "completed", some "a.pdf"⟩]
        [⟨"id1", PyVal.float "0.5",
          [("source", PyVal.str "data/input/a.pdf"),
           ("text", PyVal.str "hello")]⟩]
        (Except.ok []) Option.none (Except.ok "ans") 0 resp ?_ ?_ ?_ hrun
      · intro m hm
        rcases List.mem_singleton.mp hm with rfl
        exact ⟨"a.pdf", by decide, rfl⟩
      · intro fn hfn
        have : fn = "a.pdf" := by
          have hsf : session_files_of [(⟨some "completed", some "a.pdf"⟩ : SessionPaper)]
              = ["a.pdf"] := by decide
          rw [hsf] at hfn
          exact List.mem_singleton.mp hfn
        subst this
        decide
      · intro f hf
        exact absurd hf (by simp)

/-- Counterexample to C1 as stated: on the fallback path (the filtered query
raises, the retry runs without the filter) the returned source `b.pdf` is not
a completed paper of the session, whose only completed file is `a.pdf`. -/
theorem claim_C1_counterexample :
    session_files_of [(⟨some "completed", some "a.pdf"⟩ : SessionPaper)]
      = ["a.pdf"] ∧
    resultSources (ask_session_rag_question 1 "q" (some ⟨true⟩)
        [(⟨some "completed", some "a.pdf"⟩ : SessionPaper)]
        (Except.error "filter query failed")
        (Except.ok [⟨"id1", PyVal.float "0.5",
          [("source", PyVal.str "data/input/b.pdf"),
           ("text", PyVal.str "hello world")]⟩])
        Option.none (Except.ok "answer") 0)
      = [some "b.pdf"] ∧
    ("b.pdf" ∉ session_files_of [(⟨some "completed", some "a.pdf"⟩ : SessionPaper)]) := by
  refine ⟨by decide, by decide, by decide⟩

end RagService
